import Mathlib

/-!
# Verification of the BSON serde helpers and raw array builder

A shallow embedding of `src/serde_helpers.rs` and `src/raw/array_buf.rs` of the
`bson-rust` crate, together with proofs of the specified properties.

Machine integers are embedded as `Nat`/`Int` with explicit bounds; the 64-bit
IEEE-754 doubles produced and consumed by the `u32_as_f64`/`u64_as_f64` helpers
are embedded as exact rationals together with an explicit round-to-nearest-even
rounding function, so that every float operation of the source is an explicit
rounded operation on `ℚ`.
-/

set_option autoImplicit false

namespace BsonSpec

/-! ## Integer bounds -/

def u64MAX : Nat := 2 ^ 64 - 1

def i32MAX : Nat := 2 ^ 31 - 1

def i64MAX : Nat := 2 ^ 63 - 1

/-! ## Timestamp and the timestamp/u32 adapters

From `src/serde_helpers.rs`, modules `timestamp_as_u32` and `u32_as_timestamp`.
`Timestamp` has two `u32` fields, `time` and `increment`. -/

structure Timestamp where
  time : Nat
  increment : Nat
deriving DecidableEq, Repr

namespace timestamp_as_u32

/-- `timestamp_as_u32::serialize` (serde_helpers.rs:601-608): errors when the
increment is non-zero, otherwise emits the `time` field as a `u32`. -/
def serialize (val : Timestamp) : Option Nat :=
  if val.increment ≠ 0 then none
  else some val.time

/-- `timestamp_as_u32::deserialize` (serde_helpers.rs:611-617): reads a `u32`
and builds the timestamp with increment `0`. -/
def deserialize (time : Nat) : Timestamp :=
  { time := time, increment := 0 }

end timestamp_as_u32

namespace u32_as_timestamp

/-- `u32_as_timestamp::serialize` (serde_helpers.rs:563-569): emits
`Timestamp { time: val, increment: 0 }`. -/
def serialize (val : Nat) : Timestamp :=
  { time := val, increment := 0 }

/-- `u32_as_timestamp::deserialize` (serde_helpers.rs:572-578): reads a
timestamp and returns its `time` field, discarding the increment. -/
def deserialize (ts : Timestamp) : Nat :=
  ts.time

end u32_as_timestamp

/-! ## Unsigned-to-signed integer helpers

From `src/serde_helpers.rs` lines 51-77.  `iNN::try_from` on an unsigned value
succeeds exactly when the value is at most `iNN::MAX`; on success the helpers
serialize the numerically equal signed value. -/

/-- `serialize_u32_as_i32` (serde_helpers.rs:51-56). -/
def serialize_u32_as_i32 (val : Nat) : Option Int :=
  if val ≤ i32MAX then some (val : Int) else none

/-- `serialize_u32_as_i64` (serde_helpers.rs:59-61): always succeeds. -/
def serialize_u32_as_i64 (val : Nat) : Int :=
  (val : Int)

/-- `serialize_u64_as_i32` (serde_helpers.rs:64-69). -/
def serialize_u64_as_i32 (val : Nat) : Option Int :=
  if val ≤ i32MAX then some (val : Int) else none

/-- `serialize_u64_as_i64` (serde_helpers.rs:72-77). -/
def serialize_u64_as_i64 (val : Nat) : Option Int :=
  if val ≤ i64MAX then some (val : Int) else none

/-! ## The raw array builder

From `src/raw/array_buf.rs`.  The underlying `RawDocumentBuf` type is not part
of the sources, so it is modelled from the spec. -/

/-- Modelled from the spec: `RawDocumentBuf` (the file `document_buf.rs` is not
among the sources).  Per the spec a document is an ordered sequence of
key/value elements; `append(key, value)` appends an element at the end, and
iteration yields the elements in order, so `iter().count()` is the number of
elements.  The value payloads are irrelevant to the array-builder claims, so
the element value type is a parameter. -/
abbrev RawDocumentBuf (α : Type) : Type := List (String × α)

/-- `RawDocumentBuf::new`: the empty document. -/
def RawDocumentBuf.new (α : Type) : RawDocumentBuf α := []

/-- `RawDocumentBuf::append`: appends one element at the end. -/
def RawDocumentBuf.append {α : Type} (doc : RawDocumentBuf α) (key : String) (value : α) :
    RawDocumentBuf α :=
  doc ++ [(key, value)]

/-- `doc.iter().count()`: the number of elements of the document. -/
def RawDocumentBuf.iterCount {α : Type} (doc : RawDocumentBuf α) : Nat :=
  List.length doc

/-- The keys of the document's elements, in order. -/
def RawDocumentBuf.keys {α : Type} (doc : RawDocumentBuf α) : List String :=
  List.map Prod.fst doc

/-- `RawArrayBuf` (array_buf.rs:42-45): an inner document plus a tracked
logical element count. -/
structure RawArrayBuf (α : Type) where
  inner : RawDocumentBuf α
  len : Nat

/-- `RawArrayBuf::new` (array_buf.rs:49-54). -/
def RawArrayBuf.new (α : Type) : RawArrayBuf α :=
  { inner := RawDocumentBuf.new α, len := 0 }

/-- `RawArrayBuf::from_raw_document_buf` (array_buf.rs:59-62): one counting
pass over the already-encoded document establishes `len`. -/
def RawArrayBuf.from_raw_document_buf {α : Type} (doc : RawDocumentBuf α) : RawArrayBuf α :=
  { inner := doc, len := doc.iterCount }

/-- `RawArrayBuf::push` (array_buf.rs:92-98): appends under the key
`self.len.to_string()` (the decimal representation of the tracked count) and
increments the count.  `Nat.repr` is the decimal string of a natural. -/
def RawArrayBuf.push {α : Type} (a : RawArrayBuf α) (value : α) : RawArrayBuf α :=
  { inner := a.inner.append (Nat.repr a.len) value, len := a.len + 1 }

/-- `FromIterator for RawArrayBuf` (array_buf.rs:101-109): start from `new`
and `push` every item. -/
def RawArrayBuf.fromList {α : Type} (l : List α) : RawArrayBuf α :=
  List.foldl RawArrayBuf.push (RawArrayBuf.new α) l

/-- The tracked count equals the number of elements of the inner document. -/
def RawArrayBuf.wf {α : Type} (a : RawArrayBuf α) : Prop :=
  a.len = a.inner.iterCount

/-! ## Legacy UUID encodings

From `src/serde_helpers.rs`, modules `uuid_1_as_java_legacy_binary`,
`uuid_1_as_python_legacy_binary` and `uuid_1_as_c_sharp_legacy_binary`
(expansions of the `as_legacy_binary_mod` definition, lines 431-459).  A UUID
is 16 bytes, embedded here as a list of byte values.  The
`Binary::from_uuid_with_representation` / `Binary::to_uuid_with_representation`
conversions live outside the sources, so they are modelled from the spec. -/

/-- `BinarySubtype::UuidOld`: the legacy-UUID subtype byte `0x03`. -/
def uuidOldSubtype : Nat := 0x03

/-- A BSON binary value: a subtype byte and a payload. -/
structure Binary where
  subtype : Nat
  bytes : List Nat
deriving DecidableEq, Repr

/-- `UuidRepresentation`: the explicit representation tag selecting one of the
three legacy byte orderings. -/
inductive UuidRepresentation where
  | javaLegacy
  | pythonLegacy
  | cSharpLegacy
deriving DecidableEq, Repr

/-- Modelled from the spec: the Java-legacy byte ordering (the reordering of
`Binary::from_uuid_with_representation`, which is not among the sources).  The
spec fixes the documented byte sequences: for the identifier
`00112233-4455-6677-8899-aabbccddeeff` the Java-legacy encoding is
`7766554433221100FFEEDDCCBBAA9988`, i.e. each 8-byte half is reversed. -/
def javaLegacyReorder (b : List Nat) : List Nat :=
  (b.take 8).reverse ++ (b.drop 8).reverse

/-- Modelled from the spec: the Python-legacy byte ordering keeps the
standard (RFC 4122 big-endian) byte order: the documented encoding of
`00112233-4455-6677-8899-aabbccddeeff` is `00112233445566778899AABBCCDDEEFF`
itself. -/
def pythonLegacyReorder (b : List Nat) : List Nat := b

/-- Modelled from the spec: the C#-legacy byte ordering swaps the leading
4-byte group and the two following 2-byte groups: the documented encoding of
`00112233-4455-6677-8899-aabbccddeeff` is `33221100554477668899AABBCCDDEEFF`. -/
def cSharpLegacyReorder (b : List Nat) : List Nat :=
  (b.take 4).reverse ++ ((b.drop 4).take 2).reverse ++ ((b.drop 6).take 2).reverse ++ b.drop 8

/-- The byte reordering selected by a representation tag.  Each reordering is
an involution, so decoding applies the same reordering again. -/
def reorder (rep : UuidRepresentation) : List Nat → List Nat :=
  match rep with
  | .javaLegacy => javaLegacyReorder
  | .pythonLegacy => pythonLegacyReorder
  | .cSharpLegacy => cSharpLegacyReorder

/-- Modelled from the spec: `Binary::from_uuid_with_representation` for the
legacy representations wraps the reordered bytes as binary data with the
legacy (`UuidOld`) subtype. -/
def Binary.from_uuid_with_representation (uuid : List Nat) (rep : UuidRepresentation) : Binary :=
  { subtype := uuidOldSubtype, bytes := reorder rep uuid }

/-- Modelled from the spec: `Binary::to_uuid_with_representation` for the
legacy representations requires the legacy (`UuidOld`) subtype and a 16-byte
payload, and reorders the bytes back. -/
def Binary.to_uuid_with_representation (bin : Binary) (rep : UuidRepresentation) :
    Option (List Nat) :=
  if bin.subtype = uuidOldSubtype ∧ bin.bytes.length = 16 then some (reorder rep bin.bytes)
  else none

/-- `serialize` of the legacy-UUID helper modules (serde_helpers.rs:441-444):
wrap via `Binary::from_uuid_with_representation` with the module's tag. -/
def serialize_uuid_legacy (rep : UuidRepresentation) (val : List Nat) : Binary :=
  Binary.from_uuid_with_representation val rep

/-- `deserialize` of the legacy-UUID helper modules (serde_helpers.rs:448-457):
read a `Binary` and convert with `Binary::to_uuid_with_representation` with the
module's tag. -/
def deserialize_uuid_legacy (rep : UuidRepresentation) (bin : Binary) : Option (List Nat) :=
  bin.to_uuid_with_representation rep

/-- The identifier `00112233-4455-6677-8899-aabbccddeeff` as bytes. -/
def testUuid : List Nat :=
  [0x00, 0x11, 0x22, 0x33, 0x44, 0x55, 0x66, 0x77,
   0x88, 0x99, 0xaa, 0xbb, 0xcc, 0xdd, 0xee, 0xff]

/-! ## The serde data-model events used by the wrapper types

From `src/serde_helpers.rs` lines 620-752.  The generic serde `Serializer` is
embedded initially: a `Serialize` implementation of a type `α` is a function
`α → SerValue` into the reified data model, and a `Deserialize`
implementation is a partial function `SerValue → Option α`. -/

/-- The reified serde data model: the events a serializer can receive.  Only
the shapes the claims need are distinguished; `newtypeStruct` carries the
newtype-struct name used by the wrapper types. -/
inductive SerValue where
  | int (v : Int)
  | str (s : String)
  | newtypeStruct (name : String) (inner : SerValue)
deriving DecidableEq, Repr

/-- `HumanReadable` (serde_helpers.rs:623-625): a transparent wrapper. -/
structure HumanReadable (α : Type) where
  val : α
deriving DecidableEq, Repr

/-- `HUMAN_READABLE_NEWTYPE` (serde_helpers.rs:627): the reserved private
sentinel name. -/
def HUMAN_READABLE_NEWTYPE : String := "$__bson_private_human_readable"

/-- `Serialize for HumanReadable` (serde_helpers.rs:629-636): calls
`serializer.serialize_newtype_struct(HUMAN_READABLE_NEWTYPE, &self.0)`. -/
def HumanReadable.serialize {α : Type} (serT : α → SerValue) (x : HumanReadable α) : SerValue :=
  SerValue.newtypeStruct HUMAN_READABLE_NEWTYPE (serT x.val)

/-- Modelled from the spec: a deserializer's `deserialize_newtype_struct`
entry point (the BSON `Deserializer` is not among the sources).  Per the spec
the decoder detects the sentinel by matching the reserved newtype name, then
hands the inner value to the visitor's `visit_newtype_struct`. -/
def deserializeNewtypeStruct {β : Type} (name : String) (visit : SerValue → Option β) :
    SerValue → Option β
  | SerValue.newtypeStruct n inner => if n = name then visit inner else none
  | _ => none

/-- `Deserialize for HumanReadable` (serde_helpers.rs:638-658): requests a
newtype struct named `HUMAN_READABLE_NEWTYPE` with a visitor whose
`visit_newtype_struct` maps `T::deserialize` through `HumanReadable`. -/
def HumanReadable.deserialize {α : Type} (deT : SerValue → Option α) :
    SerValue → Option (HumanReadable α) :=
  deserializeNewtypeStruct HUMAN_READABLE_NEWTYPE (fun d => (deT d).map HumanReadable.mk)

/-- `Utf8LossyDeserialization` (serde_helpers.rs:717-719): a transparent
wrapper. -/
structure Utf8LossyDeserialization (α : Type) where
  val : α
deriving DecidableEq, Repr

/-- `Serialize for Utf8LossyDeserialization` (serde_helpers.rs:723-730): calls
`self.0.serialize(serializer)` directly, with no wrapping. -/
def Utf8LossyDeserialization.serialize {α : Type} (serT : α → SerValue)
    (x : Utf8LossyDeserialization α) : SerValue :=
  serT x.val

/-! ## IEEE-754 binary64 arithmetic, exactly

The `u64_as_f64` helpers compute with `f64` values.  A finite `f64` is a
rational number, so the embedding represents doubles as exact rationals and
makes each float operation of the source an explicit round-to-nearest-even
operation.  The fuel-based logarithms below are structurally recursive so the
kernel can evaluate them on concrete inputs. -/

/-- `log2fuel fuel n` is `⌊log₂ n⌋` whenever `1 ≤ n < 2 ^ (fuel + 1)`. -/
def log2fuel : Nat → Nat → Nat
  | 0, _ => 0
  | fuel + 1, n => if 2 ≤ n then log2fuel fuel (n / 2) + 1 else 0

/-- `clog2fuel fuel n` is the least `k` with `n ≤ 2 ^ k`, given enough
fuel. -/
def clog2fuel : Nat → Nat → Nat
  | 0, _ => 0
  | fuel + 1, n => if n ≤ 1 then 0 else clog2fuel fuel ((n + 1) / 2) + 1

/-- `⌊log₂ q⌋` for a positive rational: for `q ≥ 1` the floor-log of `⌊q⌋`,
for `q < 1` minus the least `k` with `2 ^ k ≥ 1 / q`, i.e. with
`2 ^ k ≥ ⌈q⁻¹⌉`.  `1100` units of fuel cover the whole double range. -/
def ratLog2Floor (q : ℚ) : Int :=
  if 1 ≤ q then (log2fuel 1100 (Int.toNat ⌊q⌋) : Int)
  else -(clog2fuel 1100 (Int.toNat ⌈q⁻¹⌉) : Int)

/-- Round a rational to the nearest integer, ties to even. -/
def roundHalfEven (x : ℚ) : Int :=
  let f := ⌊x⌋
  let r := x - (f : ℚ)
  if r < 1 / 2 then f
  else if 1 / 2 < r then f + 1
  else if f % 2 = 0 then f else f + 1

/-- Round a positive rational to the nearest binary64 value (round to nearest,
ties to even; subnormal exponents clamp at `-1074`): scale by the ulp
`2 ^ e`, round to an integer, scale back.  Callers stay below the overflow
threshold. -/
def roundF64Pos (x : ℚ) : ℚ :=
  let e : Int := max (ratLog2Floor x - 52) (-1074)
  if 0 ≤ e then (roundHalfEven (x / 2 ^ e.toNat) : ℚ) * 2 ^ e.toNat
  else (roundHalfEven (x * 2 ^ (-e).toNat) : ℚ) / 2 ^ (-e).toNat

/-- Round a rational to the nearest binary64 value. -/
def roundF64 (x : ℚ) : ℚ :=
  if x = 0 then 0
  else if x < 0 then -roundF64Pos (-x)
  else roundF64Pos x

/-- The exactly-rounded `f64` subtraction `a - b`. -/
def fsub (a b : ℚ) : ℚ := roundF64 (a - b)

/-- `f64::EPSILON = 2 ^ (-52)`. -/
def f64EPSILON : ℚ := 1 / 2 ^ 52

/-- A rational is a finite `f64` value: it is a fixed point of binary64
rounding and below the overflow threshold. -/
def isFiniteF64 (q : ℚ) : Prop := roundF64 q = q ∧ |q| < 2 ^ 1024

/-- The Rust cast `f as u64` for a finite `f`: truncate toward zero, then
saturate into `[0, u64::MAX]`. -/
def truncU64 (q : ℚ) : Nat :=
  if q < 0 then 0 else min (Int.toNat ⌊q⌋) (2 ^ 64 - 1)

/-- The Rust cast `v as f64` for a `u64` value `v`: round to the nearest
binary64 value, ties to even.  Every `u64` value below `2 ^ 53` is exact;
larger values round at the unit `2 ^ (⌊log₂ v⌋ - 52)`.  The result is always
a natural number (at most `2 ^ 64`). -/
def u64ToF64 (v : Nat) : Nat :=
  if v < 2 ^ 53 then v
  else
    let e := log2fuel 64 v - 52
    let q := v / 2 ^ e
    let r := v % 2 ^ e
    let half := 2 ^ (e - 1)
    let q2 := if r < half then q else if half < r then q + 1 else if q % 2 = 0 then q else q + 1
    q2 * 2 ^ e

namespace u64_as_f64

/-- `u64_as_f64::serialize` (serde_helpers.rs:210-219): succeeds exactly when
`val < u64::MAX` and `val == val as f64 as u64`, emitting the double
`val as f64`. -/
def serialize (val : Nat) : Option ℚ :=
  if val < u64MAX ∧ val = truncU64 ((u64ToF64 val : Nat) : ℚ) then
    some ((u64ToF64 val : Nat) : ℚ)
  else none

/-- `u64_as_f64::deserialize` (serde_helpers.rs:194-207): reads a double `f`
and succeeds with `f as u64` exactly when `(f - f as u64 as f64).abs()` is at
most `f64::EPSILON` (the subtraction is the rounded `f64` subtraction). -/
def deserialize (f : ℚ) : Option Nat :=
  if |fsub f ((u64ToF64 (truncU64 f) : Nat) : ℚ)| ≤ f64EPSILON then some (truncU64 f)
  else none

end u64_as_f64

/-- `f` is exactly the float image of a `u64`. -/
def isU64Image (f : ℚ) : Prop :=
  ∃ v : Nat, v < 2 ^ 64 ∧ ((u64ToF64 v : Nat) : ℚ) = f

/-! ## Helper lemmas -/

theorem log2fuel_spec (fuel : Nat) : ∀ n : Nat, 1 ≤ n → n < 2 ^ (fuel + 1) →
    2 ^ log2fuel fuel n ≤ n ∧ n < 2 ^ (log2fuel fuel n + 1) := by
  induction fuel with
  | zero =>
    intro n h1 h2
    simp only [log2fuel, pow_zero, pow_one]
    omega
  | succ f ih =>
    intro n h1 h2
    simp only [log2fuel]
    by_cases h : 2 ≤ n
    · rw [if_pos h]
      have hpow : (2 : Nat) ^ (f + 1 + 1) = 2 * 2 ^ (f + 1) := by ring
      have hn2 : n / 2 < 2 ^ (f + 1) := by omega
      have h12 : 1 ≤ n / 2 := by omega
      obtain ⟨ha, hb⟩ := ih (n / 2) h12 hn2
      have e1 : (2 : Nat) ^ (log2fuel f (n / 2) + 1) = 2 * 2 ^ log2fuel f (n / 2) := by ring
      have e2 : (2 : Nat) ^ (log2fuel f (n / 2) + 1 + 1) = 2 * 2 ^ (log2fuel f (n / 2) + 1) := by
        ring
      omega
    · rw [if_neg h]
      simp only [pow_zero, pow_one]
      omega

theorem pow_bracket_unique {n a b : Nat} (ha1 : 2 ^ a ≤ n) (ha2 : n < 2 ^ (a + 1))
    (hb1 : 2 ^ b ≤ n) (hb2 : n < 2 ^ (b + 1)) : a = b := by
  by_contra hne
  rcases Nat.lt_or_ge a b with h | h
  · have : (2 : Nat) ^ (a + 1) ≤ 2 ^ b := Nat.pow_le_pow_right (by norm_num) (by omega)
    omega
  · have hba : b < a := by omega
    have : (2 : Nat) ^ (b + 1) ≤ 2 ^ a := Nat.pow_le_pow_right (by norm_num) (by omega)
    omega

/-- `u64ToF64` fixes every value of the form `m * 2 ^ e` with a 53-bit
significand and a positive exponent. -/
theorem u64ToF64_fixed {m e : Nat} (hm1 : 2 ^ 52 ≤ m) (hm2 : m < 2 ^ 53) (he : 1 ≤ e)
    (hbound : m * 2 ^ e < 2 ^ 65) : u64ToF64 (m * 2 ^ e) = m * 2 ^ e := by
  have hepos : (0 : Nat) < 2 ^ e := Nat.pos_pow_of_pos e (by norm_num)
  have hlow : 2 ^ (52 + e) ≤ m * 2 ^ e := by
    rw [pow_add]
    exact Nat.mul_le_mul_right _ hm1
  have hhigh : m * 2 ^ e < 2 ^ (52 + e + 1) := by
    have : (2 : Nat) ^ (52 + e + 1) = 2 ^ 53 * 2 ^ e := by rw [← pow_add]; ring_nf
    rw [this]
    exact (Nat.mul_lt_mul_right hepos).mpr hm2
  have hbig : ¬ m * 2 ^ e < 2 ^ 53 := by
    have h2e : (2 : Nat) ^ 1 ≤ 2 ^ e := Nat.pow_le_pow_right (by norm_num) he
    have : 2 ^ 52 * 2 ≤ m * 2 ^ e := by
      calc 2 ^ 52 * 2 = 2 ^ 52 * 2 ^ 1 := by norm_num
        _ ≤ m * 2 ^ e := Nat.mul_le_mul hm1 h2e
    omega
  have h1 : 1 ≤ m * 2 ^ e := Nat.mul_pos (by omega) hepos
  obtain ⟨hs1, hs2⟩ := log2fuel_spec 64 (m * 2 ^ e) h1
    (lt_of_lt_of_le hbound (Nat.pow_le_pow_right (by norm_num) (by norm_num)))
  have hL : log2fuel 64 (m * 2 ^ e) = 52 + e := pow_bracket_unique hs1 hs2 hlow hhigh
  unfold u64ToF64
  rw [if_neg hbig, hL]
  have he' : 52 + e - 52 = e := by omega
  rw [he']
  have hdiv : m * 2 ^ e / 2 ^ e = m := Nat.mul_div_cancel m hepos
  have hmod : m * 2 ^ e % 2 ^ e = 0 := Nat.mul_mod_left m (2 ^ e)
  have hhalf : (0 : Nat) < 2 ^ (e - 1) := Nat.pos_pow_of_pos _ (by norm_num)
  simp only [hdiv, hmod]
  rw [if_pos hhalf]

/-- Image and idempotence facts about `u64ToF64`: the image of every `u64`
value is at most `2 ^ 64` and is itself a fixed point of the rounding. -/
theorem u64ToF64_shape {v : Nat} (hv : v < 2 ^ 64) :
    u64ToF64 v ≤ 2 ^ 64 ∧ u64ToF64 (u64ToF64 v) = u64ToF64 v := by
  by_cases hsmall : v < 2 ^ 53
  · unfold u64ToF64
    rw [if_pos hsmall, if_pos hsmall]
    omega
  · have h1 : 1 ≤ v := by omega
    obtain ⟨hs1, hs2⟩ := log2fuel_spec 64 v h1
      (lt_trans hv (Nat.pow_lt_pow_right (by norm_num) (by norm_num)))
    set L := log2fuel 64 v with hLdef
    have hL53 : 53 ≤ L := by
      by_contra hc
      have : (2 : Nat) ^ (L + 1) ≤ 2 ^ 53 := Nat.pow_le_pow_right (by norm_num) (by omega)
      omega
    have hL63 : L ≤ 63 := by
      by_contra hc
      have : (2 : Nat) ^ 64 ≤ 2 ^ L := Nat.pow_le_pow_right (by norm_num) (by omega)
      omega
    have hrw : u64ToF64 v =
        (if v % 2 ^ (L - 52) < 2 ^ (L - 52 - 1) then v / 2 ^ (L - 52)
         else if 2 ^ (L - 52 - 1) < v % 2 ^ (L - 52) then v / 2 ^ (L - 52) + 1
         else if v / 2 ^ (L - 52) % 2 = 0 then v / 2 ^ (L - 52)
         else v / 2 ^ (L - 52) + 1) * 2 ^ (L - 52) := by
      unfold u64ToF64
      rw [if_neg hsmall]
    set e := L - 52 with hedef
    have he1 : 1 ≤ e := by omega
    have hepos : (0 : Nat) < 2 ^ e := Nat.pos_pow_of_pos e (by norm_num)
    have hLe : L = 52 + e := by omega
    have hqlow : 2 ^ 52 ≤ v / 2 ^ e := by
      rw [Nat.le_div_iff_mul_le hepos, ← pow_add]
      rw [hLe] at hs1
      exact le_of_eq_of_le (by ring_nf) hs1
    have hqhigh : v / 2 ^ e < 2 ^ 53 := by
      rw [Nat.div_lt_iff_lt_mul hepos, ← pow_add]
      rw [hLe] at hs2
      exact lt_of_lt_of_le hs2 (Nat.pow_le_pow_right (by norm_num) (by omega))
    set q2 := (if v % 2 ^ e < 2 ^ (e - 1) then v / 2 ^ e
         else if 2 ^ (e - 1) < v % 2 ^ e then v / 2 ^ e + 1
         else if v / 2 ^ e % 2 = 0 then v / 2 ^ e
         else v / 2 ^ e + 1) with hq2def
    have hq2low : 2 ^ 52 ≤ q2 := by
      rw [hq2def]
      split
      · exact hqlow
      · split
        · omega
        · split
          · exact hqlow
          · omega
    have hq2high : q2 ≤ 2 ^ 53 := by
      rw [hq2def]
      split
      · omega
      · split
        · omega
        · split
          · omega
          · omega
    have hbound : q2 * 2 ^ e ≤ 2 ^ 64 := by
      calc q2 * 2 ^ e ≤ 2 ^ 53 * 2 ^ e := Nat.mul_le_mul_right _ hq2high
        _ = 2 ^ (53 + e) := by rw [← pow_add]
        _ ≤ 2 ^ 64 := Nat.pow_le_pow_right (by norm_num) (by omega)
    constructor
    · rw [hrw]
      exact hbound
    · rw [hrw]
      by_cases hq53 : q2 < 2 ^ 53
      · exact u64ToF64_fixed hq2low hq53 he1 (by
          have h65 : (2 : Nat) ^ 64 < 2 ^ 65 := by norm_num
          omega)
      · have hq2eq : q2 = 2 ^ 53 := by omega
        have hsplit : q2 * 2 ^ e = 2 ^ 52 * 2 ^ (e + 1) := by
          rw [hq2eq, ← pow_add, ← pow_add]
          ring_nf
        rw [hsplit]
        exact u64ToF64_fixed (le_refl _) (by norm_num) (by omega) (by
          rw [← hsplit]
          have h65 : (2 : Nat) ^ 64 < 2 ^ 65 := by norm_num
          omega)

theorem roundF64_zero : roundF64 0 = 0 := by
  unfold roundF64
  norm_num

theorem truncU64_natCast {n : Nat} (h : n ≤ 2 ^ 64 - 1) : truncU64 ((n : Nat) : ℚ) = n := by
  unfold truncU64
  rw [if_neg (not_lt.mpr (Nat.cast_nonneg n))]
  rw [Int.floor_natCast, Int.toNat_natCast]
  omega

theorem newtypeStruct_ne (n : String) (v : SerValue) : SerValue.newtypeStruct n v ≠ v := by
  intro h
  have hs := congrArg sizeOf h
  simp only [SerValue.newtypeStruct.sizeOf_spec] at hs
  omega

theorem roundHalfEven_intCast (k : ℤ) : roundHalfEven ((k : ℤ) : ℚ) = k := by
  unfold roundHalfEven
  simp [Int.floor_intCast]

/-- Binary64 rounding fixes `2 ^ (-53)` (it is a representable double). -/
theorem roundF64_one_div_2_53 : roundF64 ((1 : ℚ) / 2 ^ 53) = (1 : ℚ) / 2 ^ 53 := by
  unfold roundF64
  rw [if_neg (by norm_num), if_neg (by norm_num)]
  unfold roundF64Pos
  rw [show ratLog2Floor ((1 : ℚ) / 2 ^ 53) = -53 by norm_num [ratLog2Floor]; decide]
  rw [show (max (-53 - 52 : ℤ) (-1074) : ℤ) = -105 by norm_num]
  rw [if_neg (by norm_num)]
  rw [show ((-(-105 : ℤ)).toNat) = 105 from rfl]
  rw [show ((1 : ℚ) / 2 ^ 53) * 2 ^ 105 = ((2 ^ 52 : ℤ) : ℚ) by norm_num]
  rw [roundHalfEven_intCast]
  norm_num

/-- `deserialize` accepts `2 ^ (-53)`, returning `0`: the difference from the
image of its truncation is `2 ^ (-53)` itself, within `f64::EPSILON`. -/
theorem deserialize_one_div_2_53 : u64_as_f64.deserialize ((1 : ℚ) / 2 ^ 53) = some 0 := by
  unfold u64_as_f64.deserialize
  have ht : truncU64 ((1 : ℚ) / 2 ^ 53) = 0 := by
    unfold truncU64
    rw [if_neg (by norm_num)]
    norm_num
  rw [ht, show u64ToF64 0 = 0 from rfl, Nat.cast_zero]
  unfold fsub
  rw [sub_zero, roundF64_one_div_2_53]
  rw [if_pos (by rw [abs_of_pos (by norm_num)]; norm_num [f64EPSILON])]

/-- `2 ^ (-53)` is not the float image of any `u64`: every such image is a
natural number. -/
theorem one_div_2_53_not_image : ¬ isU64Image ((1 : ℚ) / 2 ^ 53) := by
  rintro ⟨v, hv, himg⟩
  rcases Nat.eq_zero_or_pos (u64ToF64 v) with h0 | hpos
  · rw [h0] at himg
    norm_num at himg
  · have h1 : (1 : ℚ) ≤ ((u64ToF64 v : Nat) : ℚ) := by exact_mod_cast hpos
    rw [himg] at h1
    norm_num at h1

/-! ## The claims -/

/-- C3: for every `Timestamp`, serializing through `timestamp_as_u32` fails
exactly when the increment is non-zero; with increment zero it serializes to
the `time` value, and deserializing that `u32` yields the original
zero-increment timestamp back. -/
theorem timestamp_as_u32_lossy_guard (ts : Timestamp) :
    (timestamp_as_u32.serialize ts = none ↔ ts.increment ≠ 0) ∧
    (ts.increment = 0 →
      timestamp_as_u32.serialize ts = some ts.time ∧
      timestamp_as_u32.deserialize ts.time = ts) := by
  unfold timestamp_as_u32.serialize timestamp_as_u32.deserialize
  constructor
  · split <;> simp_all
  · intro h
    rw [if_neg (by omega)]
    cases ts
    simp_all

/-- Witness for C3 at the concrete timestamp `{ time := 42, increment := 0 }`. -/
theorem timestamp_as_u32_lossy_guard_witness :
    timestamp_as_u32.serialize { time := 42, increment := 0 } = some 42 ∧
    timestamp_as_u32.deserialize 42 = { time := 42, increment := 0 } :=
  (timestamp_as_u32_lossy_guard { time := 42, increment := 0 }).2 rfl

/-- C10: `u32_as_timestamp`'s decode direction always succeeds and returns
exactly the `time` field, discarding the increment; in particular decoding the
timestamp produced by `u32_as_timestamp::serialize v` (time `v`, increment
`0`) yields `v`. -/
theorem u32_as_timestamp_decode_total (ts : Timestamp) (v : Nat) :
    u32_as_timestamp.deserialize ts = ts.time ∧
    u32_as_timestamp.serialize v = { time := v, increment := 0 } ∧
    u32_as_timestamp.deserialize (u32_as_timestamp.serialize v) = v :=
  ⟨rfl, rfl, rfl⟩

/-- Witness for C10 at the concrete value `9` and a non-zero increment. -/
theorem u32_as_timestamp_decode_total_witness :
    u32_as_timestamp.deserialize { time := 9, increment := 4 } = 9 ∧
    u32_as_timestamp.deserialize (u32_as_timestamp.serialize 9) = 9 :=
  ⟨(u32_as_timestamp_decode_total { time := 9, increment := 4 } 9).1,
   (u32_as_timestamp_decode_total { time := 9, increment := 4 } 9).2.2⟩

/-- C5: the unsigned-to-signed helpers fail exactly on overflow
(`u32 → i32` and `u64 → i32` beyond `i32::MAX`, `u64 → i64` beyond
`i64::MAX`) and otherwise serialize the numerically equal signed value. -/
theorem unsigned_to_signed_exact (v : Nat) :
    (serialize_u32_as_i32 v = none ↔ i32MAX < v) ∧
    (serialize_u64_as_i32 v = none ↔ i32MAX < v) ∧
    (serialize_u64_as_i64 v = none ↔ i64MAX < v) ∧
    (∀ r : Int, serialize_u32_as_i32 v = some r → r = (v : Int)) ∧
    (∀ r : Int, serialize_u64_as_i32 v = some r → r = (v : Int)) ∧
    (∀ r : Int, serialize_u64_as_i64 v = some r → r = (v : Int)) := by
  unfold serialize_u32_as_i32 serialize_u64_as_i32 serialize_u64_as_i64
  refine ⟨?_, ?_, ?_, ?_, ?_, ?_⟩ <;> split <;> simp_all

/-- Witness for C5: `u32 → i32` fails at `2 ^ 31` (which exceeds `i32::MAX`). -/
theorem unsigned_to_signed_exact_witness : serialize_u32_as_i32 (2 ^ 31) = none :=
  (unsigned_to_signed_exact (2 ^ 31)).1.mpr (by norm_num [i32MAX])

/-- C6: the array builder invariant `len = number of elements of the inner
document`: it holds for the empty builder (with count `0`), is established by
the counting pass of `from_raw_document_buf`, and is preserved by `push`,
which increments the stored count by exactly one (without rescanning the
document). -/
theorem raw_array_buf_count_invariant {α : Type} (doc : RawDocumentBuf α) (a : RawArrayBuf α)
    (value : α) :
    (RawArrayBuf.new α).wf ∧ (RawArrayBuf.new α).len = 0 ∧
    (RawArrayBuf.from_raw_document_buf doc).wf ∧
    (RawArrayBuf.from_raw_document_buf doc).len = doc.iterCount ∧
    (a.push value).len = a.len + 1 ∧
    (a.wf → (a.push value).wf) := by
  refine ⟨rfl, rfl, rfl, rfl, rfl, ?_⟩
  intro h
  unfold RawArrayBuf.wf RawArrayBuf.push RawDocumentBuf.append RawDocumentBuf.iterCount at *
  simp [h]

/-- Witness for C6 at a concrete one-element builder over `Nat`. -/
theorem raw_array_buf_count_invariant_witness :
    ((RawArrayBuf.new Nat).push 5).wf :=
  (raw_array_buf_count_invariant (RawDocumentBuf.new Nat) (RawArrayBuf.new Nat) 5).2.2.2.2.2 rfl

/-- Folding `push` over a list appends, under the keys counting up from the
builder's current count, one element per item. -/
theorem fromList_keys_aux {α : Type} (l : List α) : ∀ a : RawArrayBuf α,
    (List.foldl RawArrayBuf.push a l).inner.keys =
      a.inner.keys ++ (List.range' a.len l.length).map Nat.repr := by
  induction l with
  | nil =>
    intro a
    simp [List.range']
  | cons x xs ih =>
    intro a
    rw [List.foldl_cons, ih]
    have hkeys : (a.push x).inner.keys = a.inner.keys ++ [Nat.repr a.len] := by
      unfold RawArrayBuf.push RawDocumentBuf.append RawDocumentBuf.keys
      simp
    have hlen : (a.push x).len = a.len + 1 := rfl
    rw [hkeys, hlen, List.length_cons, List.range'_succ]
    simp

/-- C7: `push` appends the value under the key that is the decimal string of
the tracked count `n` and increments the count to `n + 1`; consequently an
array built by pushing `k` values carries the keys `"0", "1", ...` in
order. -/
theorem push_key_is_decimal_index {α : Type} (a : RawArrayBuf α) (value : α) (l : List α) :
    (a.push value).inner = a.inner ++ [(Nat.repr a.len, value)] ∧
    (a.push value).len = a.len + 1 ∧
    (RawArrayBuf.fromList l).inner.keys = (List.range l.length).map Nat.repr := by
  refine ⟨rfl, rfl, ?_⟩
  unfold RawArrayBuf.fromList
  rw [fromList_keys_aux]
  simp [RawArrayBuf.new, RawDocumentBuf.new, RawDocumentBuf.keys, List.range_eq_range']

/-- Witness for C7: pushing three values yields the keys `"0", "1", "2"`. -/
theorem push_key_is_decimal_index_witness :
    (RawArrayBuf.fromList [10, 20, 30]).inner.keys = ["0", "1", "2"] := by
  rw [(push_key_is_decimal_index (RawArrayBuf.new Nat) 0 [10, 20, 30]).2.2]
  rfl

/-- C8: serializing `Utf8LossyDeserialization(t)` is exactly serializing `t`:
the wrapper adds nothing, unlike `HumanReadable`, which wraps the value in a
marker newtype. -/
theorem utf8_lossy_serialize_identity {α : Type} (serT : α → SerValue) (t : α) :
    Utf8LossyDeserialization.serialize serT ⟨t⟩ = serT t ∧
    HumanReadable.serialize serT ⟨t⟩ ≠ serT t :=
  ⟨rfl, newtypeStruct_ne _ _⟩

/-- Witness for C8 with the integer event serializer at `t = 3`. -/
theorem utf8_lossy_serialize_identity_witness :
    Utf8LossyDeserialization.serialize SerValue.int ⟨(3 : Int)⟩ = SerValue.int 3 :=
  (utf8_lossy_serialize_identity SerValue.int 3).1

/-- C9: serializing `HumanReadable(t)` emits a newtype struct with the fixed
reserved name `$__bson_private_human_readable` wrapping `t`'s serialization,
and deserializing requests that same reserved name and maps `T`'s
deserialization through `HumanReadable`, so a value that round-trips through
`T`'s own code round-trips through the wrapper. -/
theorem human_readable_sentinel {α : Type} (serT : α → SerValue) (deT : SerValue → Option α)
    (t : α) (h : deT (serT t) = some t) :
    HumanReadable.serialize serT ⟨t⟩ =
      SerValue.newtypeStruct "$__bson_private_human_readable" (serT t) ∧
    HumanReadable.deserialize deT (HumanReadable.serialize serT ⟨t⟩) = some ⟨t⟩ := by
  refine ⟨rfl, ?_⟩
  unfold HumanReadable.deserialize HumanReadable.serialize deserializeNewtypeStruct
  simp [h]

/-- Witness for C9 with the integer event serializer at `t = 5`. -/
theorem human_readable_sentinel_witness :
    HumanReadable.deserialize
      (fun v => match v with | SerValue.int n => some n | _ => none)
      (HumanReadable.serialize SerValue.int ⟨(5 : Int)⟩) = some ⟨5⟩ :=
  (human_readable_sentinel SerValue.int
    (fun v => match v with | SerValue.int n => some n | _ => none) 5 rfl).2

/-- C4: encoding `00112233-4455-6677-8899-aabbccddeeff` under the Java-legacy,
Python-legacy and C#-legacy helpers produces the three documented, pairwise
distinct byte sequences, each with the legacy (`UuidOld`) subtype, and each
decodes back to the original identifier exactly when decoded with the
matching representation's helper. -/
theorem legacy_uuid_byte_orders :
    serialize_uuid_legacy .javaLegacy testUuid =
      { subtype := uuidOldSubtype,
        bytes := [0x77, 0x66, 0x55, 0x44, 0x33, 0x22, 0x11, 0x00,
                  0xff, 0xee, 0xdd, 0xcc, 0xbb, 0xaa, 0x99, 0x88] } ∧
    serialize_uuid_legacy .pythonLegacy testUuid =
      { subtype := uuidOldSubtype, bytes := testUuid } ∧
    serialize_uuid_legacy .cSharpLegacy testUuid =
      { subtype := uuidOldSubtype,
        bytes := [0x33, 0x22, 0x11, 0x00, 0x55, 0x44, 0x77, 0x66,
                  0x88, 0x99, 0xaa, 0xbb, 0xcc, 0xdd, 0xee, 0xff] } ∧
    (serialize_uuid_legacy .javaLegacy testUuid).bytes ≠
      (serialize_uuid_legacy .pythonLegacy testUuid).bytes ∧
    (serialize_uuid_legacy .pythonLegacy testUuid).bytes ≠
      (serialize_uuid_legacy .cSharpLegacy testUuid).bytes ∧
    (serialize_uuid_legacy .javaLegacy testUuid).bytes ≠
      (serialize_uuid_legacy .cSharpLegacy testUuid).bytes ∧
    (∀ rep1 rep2 : UuidRepresentation,
      deserialize_uuid_legacy rep2 (serialize_uuid_legacy rep1 testUuid) = some testUuid ↔
        rep1 = rep2) := by
  refine ⟨by decide, by decide, by decide, by decide, by decide, by decide, ?_⟩
  intro rep1 rep2
  cases rep1 <;> cases rep2 <;> decide

/-- C1: `serialize_u64_as_f64 (2 ^ 53)` succeeds, producing the double
`2 ^ 53`, which deserializes back to the same `u64`; `serialize_u64_as_f64
(2 ^ 53 + 1)` fails, since `2 ^ 53 + 1` is not exactly representable (it
rounds to `2 ^ 53`). -/
theorem u64_as_f64_exactness_boundary :
    u64_as_f64.serialize (2 ^ 53) = some ((2 ^ 53 : ℚ)) ∧
    u64_as_f64.deserialize ((2 ^ 53 : ℚ)) = some (2 ^ 53) ∧
    u64_as_f64.serialize (2 ^ 53 + 1) = none := by
  have h1 : u64ToF64 (2 ^ 53) = 2 ^ 53 := by decide
  have h2 : u64ToF64 (2 ^ 53 + 1) = 2 ^ 53 := by decide
  have htr : truncU64 ((2 ^ 53 : Nat) : ℚ) = 2 ^ 53 := truncU64_natCast (by norm_num)
  have hcast : ((2 ^ 53 : Nat) : ℚ) = (2 ^ 53 : ℚ) := by push_cast; ring
  refine ⟨?_, ?_, ?_⟩
  · unfold u64_as_f64.serialize
    rw [h1, htr, hcast]
    rw [if_pos ⟨by norm_num [u64MAX], rfl⟩]
  · rw [← hcast]
    unfold u64_as_f64.deserialize
    rw [htr, h1]
    unfold fsub
    rw [sub_self, roundF64_zero]
    rw [if_pos (by norm_num [f64EPSILON])]
  · unfold u64_as_f64.serialize
    rw [h2, htr]
    rw [if_neg (by rintro ⟨-, hcontra⟩; omega)]

/-- C2 counterexample: the claim "for every finite f64 input `f`,
`deserialize_u64_from_f64` succeeds if and only if `f` is exactly the float
image of a u64" is false: `f = 2 ^ (-53)` is a finite double that is not the
image of any u64, yet `deserialize` accepts it (the code compares against
`f64::EPSILON` in the 64-bit direction too). -/
theorem u64_from_f64_not_bitexact :
    ¬ (∀ f : ℚ, isFiniteF64 f → ((u64_as_f64.deserialize f).isSome ↔ isU64Image f)) := by
  intro hclaim
  have hfin : isFiniteF64 ((1 : ℚ) / 2 ^ 53) :=
    ⟨roundF64_one_div_2_53, by rw [abs_of_pos (by norm_num : (0:ℚ) < 1 / 2 ^ 53)]; norm_num⟩
  have hsome : (u64_as_f64.deserialize ((1 : ℚ) / 2 ^ 53)).isSome := by
    rw [deserialize_one_div_2_53]
    rfl
  exact one_div_2_53_not_image ((hclaim _ hfin).mp hsome)

/-- C2 (amended): `deserialize_u64_from_f64` succeeds on every value that is
exactly the float image of a u64, returning a u64 whose float image is the
input (bit-for-bit round-trip through the integer type); but the
epsilon-bounded relaxation applies in the 64-bit decode direction as well —
the code accepts any `f` with `|f - (f as u64 as f64)| ≤ f64::EPSILON` — so
it also succeeds on values that are not the image of any u64, such as
`2 ^ (-53)`. -/
theorem u64_from_f64_exact_images_roundtrip :
    (∀ v : Nat, v < 2 ^ 64 →
      u64_as_f64.deserialize ((u64ToF64 v : Nat) : ℚ) =
        some (truncU64 ((u64ToF64 v : Nat) : ℚ)) ∧
      u64ToF64 (truncU64 ((u64ToF64 v : Nat) : ℚ)) = u64ToF64 v) ∧
    (∃ f : ℚ, isFiniteF64 f ∧ ¬ isU64Image f ∧ (u64_as_f64.deserialize f).isSome) := by
  constructor
  · intro v hv
    obtain ⟨hle, hidem⟩ := u64ToF64_shape hv
    by_cases hn : u64ToF64 v ≤ 2 ^ 64 - 1
    · have ht : truncU64 ((u64ToF64 v : Nat) : ℚ) = u64ToF64 v := truncU64_natCast hn
      rw [ht]
      refine ⟨?_, hidem⟩
      unfold u64_as_f64.deserialize
      rw [ht, hidem]
      unfold fsub
      rw [sub_self, roundF64_zero]
      rw [if_pos (by norm_num [f64EPSILON])]
    · have hn64 : u64ToF64 v = 2 ^ 64 := by omega
      have hmax : u64ToF64 (2 ^ 64 - 1) = 2 ^ 64 := by decide
      have ht : truncU64 ((2 ^ 64 : Nat) : ℚ) = 2 ^ 64 - 1 := by
        unfold truncU64
        rw [if_neg (not_lt.mpr (Nat.cast_nonneg _)), Int.floor_natCast, Int.toNat_natCast]
        omega
      rw [hn64, ht]
      refine ⟨?_, hmax⟩
      unfold u64_as_f64.deserialize
      rw [ht, hmax]
      unfold fsub
      rw [sub_self, roundF64_zero]
      rw [if_pos (by norm_num [f64EPSILON])]
  · refine ⟨(1 : ℚ) / 2 ^ 53,
      ⟨roundF64_one_div_2_53, by rw [abs_of_pos (by norm_num : (0:ℚ) < 1 / 2 ^ 53)]; norm_num⟩,
      one_div_2_53_not_image, ?_⟩
    rw [deserialize_one_div_2_53]
    rfl

/-- Witness for the amended C2 at the concrete value `v = 7` (whose float
image is exact). -/
theorem u64_from_f64_exact_images_roundtrip_witness :
    u64_as_f64.deserialize ((7 : ℚ)) = some 7 := by
  have h := (u64_from_f64_exact_images_roundtrip.1 7 (by norm_num)).1
  rw [show u64ToF64 7 = 7 from rfl] at h
  rw [truncU64_natCast (by norm_num)] at h
  norm_num at h
  exact h

end BsonSpec
